import Mathlib

/-!
Verification of the carrier-identification and result-normalization pipeline
of the `envoy` parcel-tracking tool (Go).

The embedding below translates the relevant Go source into Lean:

* the tracking-number classifier `DetectCarrier` (pkg/common.go, the
  pattern-table classifier of package `service`, whose behavior the
  repository's classifier tests encode);
* the normalized `Parcel` / `ParcelData` / `ParcelEvent` model and
  `(*Parcel).LastTrackingEvent` (pkg/common.go, package `envoy`);
* the UPS response normalization performed by `UPSService.Track`
  (pkg/ups/ups.go): the delivered flag, the delivery-date projection and
  `(*Address).String`;
* the FedEx scan-event normalization of `FedexService.Track`
  (pkg/fedex/fedex.go);
* the USPS `(*TrackingEvent).LocationString` (pkg/ups/client.go, package
  `usps`);
* the per-tracking-number fetch loop of `UPSService.Track`, with the HTTP
  transport abstracted as an oracle `fetch : String → Except GoError …`;
* the orchestrator `syncParcels` / `groupByCarrier` (cmd/envoy/main.go),
  with per-carrier `Track` calls abstracted as an oracle.

Go `time.Time` values are modelled as `Int` instants; `time.Time.After`
is the strict order `>`.  Go loops that accumulate state are translated
to structurally identical folds.  Go's per-iteration loop variables
(Go ≥ 1.22 semantics) make `&event` in `LastTrackingEvent` point to the
iteration's own value, which the fold below reflects.
-/

/-! ## Carrier classification (pkg/common.go, package service) -/

/-- The `Carrier` enumeration.  `service.Carrier` is a string type with
constants FedEx, UPS, USPS, DHL, Unknown; we model it as an inductive. -/
inductive Carrier where
  | FedEx
  | UPS
  | USPS
  | DHL
  | Unknown
  deriving DecidableEq, Repr

/-- `^\d$` on a single character: an ASCII decimal digit. -/
def isDigitChar (c : Char) : Bool := '0' ≤ c && c ≤ '9'

/-- `[a-zA-Z0-9]` on a single character. -/
def isAlnumChar (c : Char) : Bool :=
  ('a' ≤ c && c ≤ 'z') || ('A' ≤ c && c ≤ 'Z') || isDigitChar c

/-- All characters of the string are ASCII decimal digits. -/
def allDigits (s : String) : Bool := s.data.all isDigitChar

/-- The regex `^1Z[a-zA-Z0-9]{16}$` from the UPS entry of
`trackingPatterns`. -/
def matches1Z16 (s : String) : Bool :=
  match s.data with
  | c1 :: c2 :: rest =>
    c1 == '1' && c2 == 'Z' && rest.length == 16 && rest.all isAlnumChar
  | _ => false

/-- Whether a carrier's `trackingPatterns` regex matches the (normalized)
string.  The patterns (pkg/common.go):
`FedEx ↦ ^\d{12}$|^\d{15}$|^\d{20}$`,
`UPS ↦ ^1Z[a-zA-Z0-9]{16}$|^\d{18}$`,
`USPS ↦ ^\d{20}$|^\d{22}$`,
`DHL ↦ ^\d{10}$`.  `Unknown` has no pattern. -/
def patternMatches (c : Carrier) (s : String) : Bool :=
  match c with
  | .FedEx => allDigits s && (s.length == 12 || s.length == 15 || s.length == 20)
  | .UPS => matches1Z16 s || (allDigits s && s.length == 18)
  | .USPS => allDigits s && (s.length == 20 || s.length == 22)
  | .DHL => allDigits s && s.length == 10
  | .Unknown => false

/-- `strings.ReplaceAll(tn, " ", "")` then `strings.ReplaceAll(tn, "-", "")`:
replacing single characters by the empty string removes them. -/
def normalizeTrackingNumber (s : String) : String :=
  ⟨s.data.filter (fun c => !(c == ' ' || c == '-'))⟩

/-- `strings.HasPrefix(s, p)`: `p` is a prefix of `s` (modelled on the
character list, which kernel evaluation handles). -/
def hasPrefix (p s : String) : Bool := p.data.isPrefixOf s.data

/-- `usps20DigitPrefixes = ["94", "92", "93", "95"]`. -/
def usps20DigitPrefixes : List String := ["94", "92", "93", "95"]

/-- The keys of the `trackingPatterns` map.  Go iterates map keys in an
unspecified order, so classification theorems below quantify over every
permutation of this list. -/
def trackingPatternCarriers : List Carrier :=
  [Carrier.FedEx, Carrier.UPS, Carrier.USPS, Carrier.DHL]

/-- The `for carrier, pattern := range trackingPatterns` loop: return the
first carrier (in the given iteration order) whose pattern matches, else
fall through. -/
def firstPatternMatch : List Carrier → String → Carrier
  | [], _ => Carrier.Unknown
  | c :: rest, s => if patternMatches c s then c else firstPatternMatch rest s

/-- `DetectCarrier` (pkg/common.go, package service), parametrized by the
iteration order of the `trackingPatterns` map. -/
def DetectCarrierWith (order : List Carrier) (trackingNumber : String) : Carrier :=
  let tn := normalizeTrackingNumber trackingNumber
  if tn.length == 20 then
    if usps20DigitPrefixes.any (fun p => hasPrefix p tn) then Carrier.USPS
    else Carrier.FedEx
  else firstPatternMatch order tn

/-- `DetectCarrier` with one fixed iteration order (classification is in
fact order-independent; the theorems quantify over all orders). -/
def DetectCarrier (trackingNumber : String) : Carrier :=
  DetectCarrierWith trackingPatternCarriers trackingNumber

/-! Basic facts about the classifier. -/

theorem normalize_allDigits (s : String) (h : allDigits s = true) :
    normalizeTrackingNumber s = s := by
  unfold normalizeTrackingNumber
  have : s.data.filter (fun c => !(c == ' ' || c == '-')) = s.data := by
    apply List.filter_eq_self.mpr
    intro c hc
    have hd := List.all_eq_true.mp h c hc
    simp only [isDigitChar, Bool.and_eq_true, decide_eq_true_eq] at hd
    simp only [Bool.not_eq_true', Bool.or_eq_false_iff, beq_eq_false_iff_ne, ne_eq]
    constructor
    · intro he; subst he; exact absurd hd.1 (by decide)
    · intro he; subst he; exact absurd hd.1 (by decide)
  rw [this]

theorem firstPatternMatch_of_not_matches (order : List Carrier) (s : String)
    (h : ∀ c ∈ order, patternMatches c s = false) :
    firstPatternMatch order s = Carrier.Unknown := by
  induction order with
  | nil => rfl
  | cons c rest ih =>
    simp only [firstPatternMatch]
    rw [h c (List.mem_cons_self c rest), if_neg (by decide)]
    exact ih (fun d hd => h d (List.mem_cons_of_mem _ hd))

theorem firstPatternMatch_unique (order : List Carrier) (s : String) (c : Carrier)
    (hc : c ∈ order) (hm : patternMatches c s = true)
    (hothers : ∀ d, d ≠ c → patternMatches d s = false) :
    firstPatternMatch order s = c := by
  induction order with
  | nil => cases hc
  | cons d rest ih =>
    simp only [firstPatternMatch]
    by_cases hdc : d = c
    · subst hdc; rw [hm]; simp
    · rw [hothers d hdc, if_neg (by decide)]
      exact ih (List.mem_of_ne_of_mem (fun h => hdc h.symm) hc)

theorem matches1Z16_length {s : String} (h : matches1Z16 s = true) :
    s.length = 18 := by
  rcases s with ⟨_ | ⟨c1, _ | ⟨c2, rest⟩⟩⟩
  · exact absurd h (by decide)
  · simp [matches1Z16] at h
  · simp only [matches1Z16, Bool.and_eq_true, beq_iff_eq] at h
    simp [String.length, h.1.2]

/-- If the UPS, USPS and DHL patterns are all false on `s` and FedEx's is
true, the pattern loop yields FedEx in any iteration order, and similarly
for the other carriers: at most one pattern matches a given length. -/
theorem patternMatches_length {s : String} {c : Carrier}
    (h : patternMatches c s = true) :
    (c = Carrier.FedEx ∧ (s.length = 12 ∨ s.length = 15 ∨ s.length = 20)) ∨
    (c = Carrier.UPS ∧ s.length = 18) ∨
    (c = Carrier.USPS ∧ (s.length = 20 ∨ s.length = 22)) ∨
    (c = Carrier.DHL ∧ s.length = 10) := by
  cases c with
  | FedEx =>
    simp only [patternMatches, Bool.and_eq_true, Bool.or_eq_true, beq_iff_eq] at h
    exact Or.inl ⟨rfl, by tauto⟩
  | UPS =>
    simp only [patternMatches, Bool.and_eq_true, Bool.or_eq_true, beq_iff_eq] at h
    refine Or.inr (Or.inl ⟨rfl, ?_⟩)
    rcases h with h | h
    · exact matches1Z16_length h
    · exact h.2
  | USPS =>
    simp only [patternMatches, Bool.and_eq_true, Bool.or_eq_true, beq_iff_eq] at h
    exact Or.inr (Or.inr (Or.inl ⟨rfl, by tauto⟩))
  | DHL =>
    simp only [patternMatches, Bool.and_eq_true, beq_iff_eq] at h
    exact Or.inr (Or.inr (Or.inr ⟨rfl, h.2⟩))
  | Unknown => simp [patternMatches] at h

/-- C1: for every 20-character all-numeric tracking number, `DetectCarrier`
returns USPS when the string starts with one of "94", "92", "93", "95" and
FedEx otherwise, in every iteration order of the pattern map. -/
theorem detectCarrier_20digit (order : List Carrier) (s : String)
    (hlen : s.length = 20) (hdig : allDigits s = true) :
    DetectCarrierWith order s =
      (if hasPrefix "94" s || hasPrefix "92" s ||
          hasPrefix "93" s || hasPrefix "95" s
       then Carrier.USPS else Carrier.FedEx) := by
  unfold DetectCarrierWith
  rw [normalize_allDigits s hdig]
  simp [usps20DigitPrefixes, hlen, Bool.or_assoc]

/-- Witness for `detectCarrier_20digit`: concrete 20-digit inputs on both
sides of the prefix test. -/
theorem detectCarrier_20digit_witness :
    allDigits "94001111111111111111" = true ∧
    DetectCarrier "94001111111111111111" = Carrier.USPS ∧
    allDigits "12345678901234567890" = true ∧
    DetectCarrier "12345678901234567890" = Carrier.FedEx := by
  refine ⟨by decide, ?_, by decide, ?_⟩
  · have h := detectCarrier_20digit trackingPatternCarriers
      "94001111111111111111" (by decide) (by decide)
    rw [DetectCarrier, h]
    decide
  · have h := detectCarrier_20digit trackingPatternCarriers
      "12345678901234567890" (by decide) (by decide)
    rw [DetectCarrier, h]
    decide

/-- C2: the precedence rows of the spec's table: `"1Z1234567890123456"` is
UPS, every 12-digit numeric string is FedEx, every 10-digit numeric string
is DHL, and a 30-digit numeric string is Unknown — in every iteration
order of the pattern map. -/
theorem detectCarrier_precedence_rows (order : List Carrier)
    (hperm : order.Perm trackingPatternCarriers) :
    DetectCarrierWith order "1Z1234567890123456" = Carrier.UPS ∧
    (∀ s, allDigits s = true → s.length = 12 →
      DetectCarrierWith order s = Carrier.FedEx) ∧
    (∀ s, allDigits s = true → s.length = 10 →
      DetectCarrierWith order s = Carrier.DHL) ∧
    (∀ s, allDigits s = true → s.length = 30 →
      DetectCarrierWith order s = Carrier.Unknown) := by
  refine ⟨?_, ?_, ?_, ?_⟩
  · simp only [DetectCarrierWith]
    have hn : normalizeTrackingNumber "1Z1234567890123456" =
        "1Z1234567890123456" := by decide
    rw [hn, if_neg (by decide)]
    refine firstPatternMatch_unique order _ Carrier.UPS
      (hperm.mem_iff.mpr (by simp [trackingPatternCarriers]))
      (by decide) ?_
    intro d hd
    cases d <;> first | (exact absurd rfl hd) | decide
  · intro s hdig hlen
    simp only [DetectCarrierWith]
    rw [normalize_allDigits s hdig, if_neg (by simp [hlen])]
    refine firstPatternMatch_unique order s Carrier.FedEx
      (hperm.mem_iff.mpr (by simp [trackingPatternCarriers]))
      (by simp [patternMatches, hdig, hlen]) ?_
    intro d hd
    cases hpm : patternMatches d s
    · rfl
    · rcases patternMatches_length hpm with
        ⟨hc, _⟩ | ⟨hc, hl⟩ | ⟨hc, hl | hl⟩ | ⟨hc, hl⟩ <;>
        first | exact absurd hc hd | omega
  · intro s hdig hlen
    simp only [DetectCarrierWith]
    rw [normalize_allDigits s hdig, if_neg (by simp [hlen])]
    refine firstPatternMatch_unique order s Carrier.DHL
      (hperm.mem_iff.mpr (by simp [trackingPatternCarriers]))
      (by simp [patternMatches, hdig, hlen]) ?_
    intro d hd
    cases hpm : patternMatches d s
    · rfl
    · rcases patternMatches_length hpm with
        ⟨hc, hl | hl | hl⟩ | ⟨hc, hl⟩ | ⟨hc, hl | hl⟩ | ⟨hc, _⟩ <;>
        first | exact absurd hc hd | omega
  · intro s hdig hlen
    simp only [DetectCarrierWith]
    rw [normalize_allDigits s hdig, if_neg (by simp [hlen])]
    refine firstPatternMatch_of_not_matches order s ?_
    intro c _
    cases hpm : patternMatches c s
    · rfl
    · rcases patternMatches_length hpm with
        ⟨_, hl | hl | hl⟩ | ⟨_, hl⟩ | ⟨_, hl | hl⟩ | ⟨_, hl⟩ <;> omega

/-- Witness for `detectCarrier_precedence_rows` at the spec table's
concrete inputs, in the declaration order of the pattern map. -/
theorem detectCarrier_precedence_rows_witness :
    DetectCarrier "1Z1234567890123456" = Carrier.UPS ∧
    DetectCarrier "123456789012" = Carrier.FedEx ∧
    DetectCarrier "1234567890" = Carrier.DHL ∧
    DetectCarrier "123456789012345678901234567890" = Carrier.Unknown := by
  obtain ⟨h1, h2, h3, h4⟩ :=
    detectCarrier_precedence_rows trackingPatternCarriers (List.Perm.refl _)
  exact ⟨h1, h2 _ (by decide) (by decide), h3 _ (by decide) (by decide),
    h4 _ (by decide) (by decide)⟩

/-- C3: classification is total — for every input string and every
iteration order of the pattern map, the result is one of the five defined
`Carrier` values (the Lean embedding is a total function, mirroring that
the Go code has no error or panic path), and `Unknown` is the result
whenever the normalized string is not 20 characters long and no carrier's
pattern matches it. -/
theorem detectCarrier_total (order : List Carrier) (s : String) :
    (DetectCarrierWith order s = Carrier.FedEx ∨
     DetectCarrierWith order s = Carrier.UPS ∨
     DetectCarrierWith order s = Carrier.USPS ∨
     DetectCarrierWith order s = Carrier.DHL ∨
     DetectCarrierWith order s = Carrier.Unknown) ∧
    ((normalizeTrackingNumber s).length ≠ 20 ∧
      (∀ c, patternMatches c (normalizeTrackingNumber s) = false) →
     DetectCarrierWith order s = Carrier.Unknown) := by
  constructor
  · cases h : DetectCarrierWith order s <;> simp
  · rintro ⟨h20, hno⟩
    simp only [DetectCarrierWith]
    rw [if_neg (by simpa using h20)]
    exact firstPatternMatch_of_not_matches order _ (fun c _ => hno c)

/-- Witness for `detectCarrier_total`: the empty string classifies as
Unknown. -/
theorem detectCarrier_total_witness : DetectCarrier "" = Carrier.Unknown := by
  exact (detectCarrier_total trackingPatternCarriers "").2
    ⟨by decide, fun c => by cases c <;> rfl⟩

/-! ## The normalized parcel model (pkg/common.go, package envoy) -/

/-- `envoy.ParcelEventType` is a string type; its constants appear below
where the normalizers need them. -/
abbrev ParcelEventType := String

def ParcelEventTypeOrderConfirmed : ParcelEventType := "ORDER CONFIRMED"
def ParcelEventTypeAssertOnTime : ParcelEventType := "EXPECTED ON TIME"
def ParcelEventTypePickedUp : ParcelEventType := "PICKED UP"
def ParcelEventTypeDeparted : ParcelEventType := "DEPARTED"
def ParcelEventTypeProcessing : ParcelEventType := "PROCESSING"
def ParcelEventTypeArrived : ParcelEventType := "ARRIVED"
def ParcelEventTypeOnVehicle : ParcelEventType := "ON DELIVERY VEHICLE"
def ParcelEventTypeOutForDelivery : ParcelEventType := "OUT FOR DELIVERY"
def ParcelEventTypeDelivered : ParcelEventType := "DELIVERED"
def ParcelEventTypeDelayed : ParcelEventType := "DELAYED"
def ParcelEventTypeParcelHeld : ParcelEventType := "HELD"
def ParcelEventTypeAwaitingCustomerAction : ParcelEventType :=
  "AWAITING CUSTOMER ACTION"
def ParcelEventTypeAwaitingCustomerPickup : ParcelEventType :=
  "AWAITING CUSTOMER PICKUP"
def ParcelEventTypeTransferredToLocal : ParcelEventType := "TRANSFERRED TO LOCAL"
def ParcelEventTypeUnknown : ParcelEventType := "UNKNOWN"

/-- Errors surfaced by Go code (`error` values); the exact payload is
irrelevant to the claims, only presence/identity matters. -/
inductive GoError where
  | timeout
  | statusCode (code : Nat)
  | unmarshal
  | authFailed
  | other (msg : String)
  deriving DecidableEq, Repr

deriving instance DecidableEq for Except

/-- `envoy.ParcelEvent`.  Go `time.Time` is modelled as an `Int` instant;
`time.Time.After` is `>`.  The Go field `Type` is spelled `EType` because
`Type` is reserved in Lean. -/
structure ParcelEvent where
  EType : ParcelEventType
  Description : String
  Location : String
  Timestamp : Int
  deriving DecidableEq, Repr

/-- `envoy.ParcelData`. -/
structure ParcelData where
  Events : List ParcelEvent
  Delivered : Bool
  DeliveryProjection : Option Int
  deriving DecidableEq, Repr

/-- `envoy.Parcel`.  `Error` is the Go `error` field (`nil` ↦ `none`). -/
structure Parcel where
  Name : String
  Carrier : Carrier
  TrackingNumber : String
  TrackingURL : String
  Data : Option ParcelData
  Error : Option GoError
  deriving DecidableEq, Repr

/-- `envoy.NewParcel`: data and error start out nil. -/
def NewParcel (name : String) (carrier : Carrier)
    (trackingNumber trackingURL : String) : Parcel :=
  { Name := name, Carrier := carrier, TrackingNumber := trackingNumber,
    TrackingURL := trackingURL, Data := none, Error := none }

/-- `(*Parcel).HasData`. -/
def Parcel.HasData (p : Parcel) : Bool := p.Data.isSome

/-- `(*Parcel).HasError`. -/
def Parcel.HasError (p : Parcel) : Bool := p.Error.isSome

/-- The `for _, event := range p.Data.Events` loop of
`(*Parcel).LastTrackingEvent`, after the first iteration has set
`lastEvent` to the first element: replace the accumulator whenever the
current event's timestamp is strictly after (`time.Time.After`) the
accumulator's. -/
def lastEventLoop (acc : ParcelEvent) : List ParcelEvent → ParcelEvent
  | [] => acc
  | e :: es => lastEventLoop (if e.Timestamp > acc.Timestamp then e else acc) es

/-- `(*Parcel).LastTrackingEvent` (pkg/common.go, package envoy): nil when
there is no data or no events, else the fold above. -/
def Parcel.LastTrackingEvent (p : Parcel) : Option ParcelEvent :=
  match p.Data with
  | none => none
  | some d =>
    match d.Events with
    | [] => none
    | e :: es => some (lastEventLoop e es)

theorem lastEventLoop_mem (acc : ParcelEvent) (l : List ParcelEvent) :
    lastEventLoop acc l ∈ acc :: l := by
  induction l generalizing acc with
  | nil => simp [lastEventLoop]
  | cons e es ih =>
    simp only [lastEventLoop]
    rcases List.mem_cons.mp (ih (if e.Timestamp > acc.Timestamp then e else acc)) with h | h
    · rw [h]
      by_cases hc : e.Timestamp > acc.Timestamp
      · rw [if_pos hc]
        exact List.mem_cons_of_mem _ (List.mem_cons_self _ _)
      · rw [if_neg hc]
        exact List.mem_cons_self _ _
    · exact List.mem_cons_of_mem _ (List.mem_cons_of_mem _ h)

theorem lastEventLoop_ge (acc : ParcelEvent) (l : List ParcelEvent) :
    ∀ x ∈ acc :: l, x.Timestamp ≤ (lastEventLoop acc l).Timestamp := by
  induction l generalizing acc with
  | nil =>
    intro x hx
    rcases List.mem_cons.mp hx with h | h
    · exact h ▸ le_refl _
    · cases h
  | cons e es ih =>
    intro x hx
    simp only [lastEventLoop]
    have hacc : acc.Timestamp ≤
        (if e.Timestamp > acc.Timestamp then e else acc).Timestamp := by
      by_cases hc : e.Timestamp > acc.Timestamp
      · rw [if_pos hc]; omega
      · rw [if_neg hc]
    have he : e.Timestamp ≤
        (if e.Timestamp > acc.Timestamp then e else acc).Timestamp := by
      by_cases hc : e.Timestamp > acc.Timestamp
      · rw [if_pos hc]
      · rw [if_neg hc]; omega
    rcases List.mem_cons.mp hx with h | h
    · subst h
      exact le_trans hacc (ih _ _ (List.mem_cons_self _ _))
    · rcases List.mem_cons.mp h with h2 | h2
      · subst h2
        exact le_trans he (ih _ _ (List.mem_cons_self _ _))
      · exact ih _ x (List.mem_cons_of_mem _ h2)

/-- C10: `LastTrackingEvent` is nil exactly when the parcel has no data
payload or its event list is empty, and is a present event otherwise —
the nil sentinel callers such as `syncParcels` rely on. -/
theorem lastTrackingEvent_none_iff (p : Parcel) :
    p.LastTrackingEvent = none ↔
      p.Data = none ∨ ∃ d, p.Data = some d ∧ d.Events = [] := by
  cases hd : p.Data with
  | none => simp [Parcel.LastTrackingEvent, hd]
  | some d =>
    cases he : d.Events with
    | nil => simp [Parcel.LastTrackingEvent, hd, he]
    | cons e es =>
      simp only [Parcel.LastTrackingEvent, hd, he]
      constructor
      · intro h; cases h
      · rintro (h | ⟨d2, hd2, he2⟩)
        · cases h
        · rw [Option.some_inj.mp hd2] at he
          rw [he2] at he
          cases he

/-- C4 (amended): for a parcel with a nonempty event list,
`LastTrackingEvent` returns a member event whose timestamp is maximal,
and when the events' timestamps are pairwise distinct the same event is
returned for every permutation of the event list. -/
theorem lastTrackingEvent_max_of_perm (p q : Parcel) (dp dq : ParcelData)
    (hp : p.Data = some dp) (hq : q.Data = some dq)
    (hperm : dp.Events.Perm dq.Events)
    (hnodup : (dp.Events.map ParcelEvent.Timestamp).Nodup)
    (hne : dp.Events ≠ []) :
    ∃ ev, p.LastTrackingEvent = some ev ∧ q.LastTrackingEvent = some ev ∧
      ev ∈ dp.Events ∧ ∀ x ∈ dp.Events, x.Timestamp ≤ ev.Timestamp := by
  rcases hep : dp.Events with _ | ⟨e, es⟩
  · exact absurd hep hne
  rcases heq : dq.Events with _ | ⟨f, fs⟩
  · rw [hep, heq] at hperm
    simp at hperm
  refine ⟨lastEventLoop e es, ?_, ?_, ?_, ?_⟩
  · simp [Parcel.LastTrackingEvent, hp, hep]
  · have hmem : lastEventLoop e es ∈ f :: fs := by
      have h1 := lastEventLoop_mem e es
      rw [← hep, hperm.mem_iff, heq] at h1
      exact h1
    have hmem2 : lastEventLoop f fs ∈ e :: es := by
      have h1 := lastEventLoop_mem f fs
      rw [← heq, ← hperm.mem_iff, hep] at h1
      exact h1
    have hge1 : (lastEventLoop f fs).Timestamp ≤ (lastEventLoop e es).Timestamp :=
      lastEventLoop_ge e es _ hmem2
    have hge2 : (lastEventLoop e es).Timestamp ≤ (lastEventLoop f fs).Timestamp :=
      lastEventLoop_ge f fs _ hmem
    have heqts : (lastEventLoop e es).Timestamp = (lastEventLoop f fs).Timestamp :=
      le_antisymm hge2 hge1
    have heqev : lastEventLoop e es = lastEventLoop f fs := by
      have h1 : lastEventLoop e es ∈ dp.Events := by rw [hep]; exact lastEventLoop_mem e es
      have h2 : lastEventLoop f fs ∈ dp.Events := by
        rw [hperm.mem_iff, heq]; exact lastEventLoop_mem f fs
      exact List.inj_on_of_nodup_map hnodup h1 h2 heqts
    simp [Parcel.LastTrackingEvent, hq, heq, ← heqev]
  · exact lastEventLoop_mem e es
  · exact lastEventLoop_ge e es

/-- Concrete parcels for the C4 counterexample and the C4 witness. -/
def cexEventA : ParcelEvent :=
  { EType := ParcelEventTypeArrived, Description := "at hub A",
    Location := "A", Timestamp := 7 }

def cexEventB : ParcelEvent :=
  { EType := ParcelEventTypeDeparted, Description := "left hub B",
    Location := "B", Timestamp := 7 }

def cexDataAB : ParcelData :=
  { Events := [cexEventA, cexEventB], Delivered := false,
    DeliveryProjection := none }

def cexDataBA : ParcelData :=
  { Events := [cexEventB, cexEventA], Delivered := false,
    DeliveryProjection := none }

def cexParcelAB : Parcel :=
  { Name := "x", Carrier := Carrier.UPS, TrackingNumber := "x",
    TrackingURL := "", Data := some cexDataAB, Error := none }

def cexParcelBA : Parcel :=
  { cexParcelAB with Data := some cexDataBA }

/-- Counterexample to C4 as stated: two distinct events sharing the
maximal timestamp.  The two parcels hold permutations of the same event
list, yet `LastTrackingEvent` returns different events (the first
maximal event in list order), so selection does depend on position. -/
theorem lastTrackingEvent_order_dependent :
    cexDataAB.Events.Perm cexDataBA.Events ∧
    cexParcelAB.LastTrackingEvent = some cexEventA ∧
    cexParcelBA.LastTrackingEvent = some cexEventB ∧
    cexEventA ≠ cexEventB := by
  refine ⟨List.Perm.swap cexEventB cexEventA [], by decide, by decide, by decide⟩

def wEvent1 : ParcelEvent :=
  { EType := ParcelEventTypeArrived, Description := "arrived",
    Location := "X", Timestamp := 5 }

def wEvent2 : ParcelEvent :=
  { EType := ParcelEventTypeDelivered, Description := "delivered",
    Location := "X", Timestamp := 9 }

def wData12 : ParcelData :=
  { Events := [wEvent1, wEvent2], Delivered := true,
    DeliveryProjection := none }

def wData21 : ParcelData :=
  { Events := [wEvent2, wEvent1], Delivered := true,
    DeliveryProjection := none }

def wParcel12 : Parcel :=
  { Name := "w", Carrier := Carrier.FedEx, TrackingNumber := "w",
    TrackingURL := "", Data := some wData12, Error := none }

def wParcel21 : Parcel :=
  { wParcel12 with Data := some wData21 }

/-- Witness for `lastTrackingEvent_max_of_perm` on a two-event parcel
with distinct timestamps, permuted both ways. -/
theorem lastTrackingEvent_max_of_perm_witness :
    ∃ ev, wParcel12.LastTrackingEvent = some ev ∧
      wParcel21.LastTrackingEvent = some ev ∧
      ev ∈ wData12.Events ∧ ∀ x ∈ wData12.Events, x.Timestamp ≤ ev.Timestamp :=
  lastTrackingEvent_max_of_perm wParcel12 wParcel21 wData12 wData21 rfl rfl
    (List.Perm.swap wEvent2 wEvent1 []) (by decide) (by decide)

/-! ## UPS normalization (pkg/ups/ups.go) -/

/-- Numeric value of a digit string (used by the timestamp models). -/
def digitsToNat (l : List Char) : Nat :=
  l.foldl (fun acc c => acc * 10 + (c.toNat - ('0').toNat)) 0

/-- Model of Go `time.Parse("20060102150405", s)` with the error ignored,
as in `(*Activity).Timestamp`: a 14-digit string with in-range month,
day, hour, minute and second fields is mapped to the numeric value
YYYYMMDDHHMMSS, which orders valid instants chronologically; any other
string yields the zero time, modelled as `0`, which precedes every valid
instant.  (Per-month day counts are elided; no claim depends on them.) -/
def parseTimestamp14 (s : String) : Int :=
  if allDigits s && s.length == 14 then
    let n := digitsToNat s.data
    let mo := n / 100000000 % 100
    let d := n / 1000000 % 100
    let h := n / 10000 % 100
    let mi := n / 100 % 100
    let sec := n % 100
    if 1 ≤ mo ∧ mo ≤ 12 ∧ 1 ≤ d ∧ d ≤ 31 ∧ h ≤ 23 ∧ mi ≤ 59 ∧ sec ≤ 59 then
      (n : Int)
    else 0
  else 0

/-- Model of Go `time.Parse("20060102", s)`, with `none` for a parse
error: an 8-digit string with in-range month and day maps to the numeric
value YYYYMMDD (chronological on valid dates). -/
def parseYYYYMMDD (s : String) : Option Int :=
  if allDigits s && s.length == 8 then
    let n := digitsToNat s.data
    let mo := n / 100 % 100
    let d := n % 100
    if 1 ≤ mo ∧ mo ≤ 12 ∧ 1 ≤ d ∧ d ≤ 31 then some (n : Int) else none
  else none

/-- `ups.Address` (pkg/ups/ups.go); only the fields `(*Address).String`
reads are modelled. -/
structure UPSAddress where
  City : String
  StateProvince : String
  Country : String
  CountryCode : String
  PostalCode : String
  deriving DecidableEq, Repr

/-- The placeholder `(*Address).String` returns for an all-empty address:
the source literal (a mojibake em-dash). -/
def upsEmptyPlaceholder : String := "â€”"

/-- ASCII uppercase of one character (model of `unicode.ToUpper` on the
ASCII range; every claim input is ASCII). -/
def upperChar (c : Char) : Char :=
  if 'a' ≤ c ∧ c ≤ 'z' then Char.ofNat (c.toNat - 32) else c

/-- Model of Go `strings.ToUpper` (character-wise; ASCII-faithful). -/
def toUpperStr (s : String) : String := ⟨s.data.map upperChar⟩

/-- The city/state/zip steps of the location builders.  The three source
functions — `(*ups.Address).String`, `(*fedex.Address).String` and
`(*usps.TrackingEvent).LocationString` — contain these steps verbatim
(city, a ", " separator only when a state follows, the state, and the
zip preceded by a space when anything was written); they differ only in
the country step. -/
def buildCityStateZip (city state zip : String) : String :=
  let sb : String :=
    if city ≠ "" then city ++ (if state ≠ "" then ", " else "") else ""
  let sb := sb ++ state
  if zip ≠ "" then (if sb ≠ "" then sb ++ " " else sb) ++ zip else sb

/-- `(*ups.Address).String`: builds "CITY, STATE ZIP, COUNTRY" in a
`strings.Builder`, where the country code is appended whenever it is not
"US" (note: also when it is empty), and upper-cases the result.
`strings.ToUpper` is modelled by the character-wise `toUpperStr` (they
agree on ASCII; all claims use ASCII inputs). -/
def upsAddressString (a : UPSAddress) : String :=
  let sb := buildCityStateZip a.City a.StateProvince a.PostalCode
  let sb := if a.CountryCode ≠ "US" then (if sb ≠ "" then sb ++ ", " else sb) ++ a.CountryCode else sb
  if sb = "" then upsEmptyPlaceholder else toUpperStr sb

/-- `ups.Status`; the Go field `Type` is spelled `SType`. -/
structure UPSStatus where
  SType : String
  Description : String
  Code : String
  StatusCode : String
  deriving DecidableEq, Repr

/-- `(*ups.Status).ParcelEventType`: the primary switch on `Code` and the
secondary switch on `StatusCode`. -/
def upsStatusEventType (s : UPSStatus) : ParcelEventType :=
  if s.Code == "MP" then ParcelEventTypeOrderConfirmed
  else if s.Code == "OR" || s.Code == "AR" then ParcelEventTypeArrived
  else if s.Code == "YP" then ParcelEventTypeProcessing
  else if s.Code == "DP" then ParcelEventTypeDeparted
  else if s.Code == "OF" then ParcelEventTypeOnVehicle
  else if s.Code == "OT" then ParcelEventTypeOutForDelivery
  else if s.Code == "FS" then ParcelEventTypeDelivered
  else if ["00", "09", "12", "2D", "2J", "32", "41", "42", "44"].contains s.StatusCode then
    ParcelEventTypeDelayed
  else if ["1N", "1Z", "2C", "2Q"].contains s.StatusCode then
    ParcelEventTypeAwaitingCustomerPickup
  else if s.StatusCode == "28" then ParcelEventTypeParcelHeld
  else if s.StatusCode == "2K" then ParcelEventTypeOutForDelivery
  else if ["2W", "3F", "3G", "3H"].contains s.StatusCode then
    ParcelEventTypeDelivered
  else if s.StatusCode == "38" then ParcelEventTypeAwaitingCustomerAction
  else if s.StatusCode == "4X" then ParcelEventTypeTransferredToLocal
  else ParcelEventTypeUnknown

/-- `ups.Location`: the address container of an activity.  The Go field
is a pointer that the normalizer dereferences unconditionally; a response
always carries the object, so it is modelled as a plain field. -/
structure UPSLocation where
  Address : UPSAddress
  deriving DecidableEq, Repr

/-- `ups.Activity`: one scan record.  `Date` is "YYYYMMDD" and `Time` is
"HHMMSS". -/
structure UPSActivity where
  Location : UPSLocation
  Status : UPSStatus
  Date : String
  Time : String
  deriving DecidableEq, Repr

/-- `(*Activity).Timestamp()`: parse `Date + Time`, ignoring errors. -/
def UPSActivity.Timestamp (a : UPSActivity) : Int :=
  parseTimestamp14 (a.Date ++ a.Time)

/-- The carrier's documented delivered signal for UPS, as tested by
`UPSService.Track`: status type "D" or status code "FS". -/
def upsDeliveredSignal (a : UPSActivity) : Bool :=
  a.Status.SType == "D" || a.Status.Code == "FS"

/-- The `ParcelEvent` built from one activity inside `UPSService.Track`. -/
def upsActivityToEvent (a : UPSActivity) : ParcelEvent :=
  { Timestamp := a.Timestamp,
    Description := a.Status.Description,
    Location := upsAddressString a.Location.Address,
    EType := upsStatusEventType a.Status }

/-- The `for _, a := range p.Activity` loop of `UPSService.Track`
(pkg/ups/ups.go lines 142–156): sets `Delivered` when an activity carries
the delivered signal and appends the normalized event.  (The loop's
`lastEvent` variable is dead code — it is never read after the loop — and
is omitted.)  Returns (delivered flag, events). -/
def upsActivityFold (acts : List UPSActivity) : Bool × List ParcelEvent :=
  acts.foldl
    (fun st a => (st.1 || upsDeliveredSignal a, st.2 ++ [upsActivityToEvent a]))
    (false, [])

/-- `ups.DeliveryDate`; the Go field `Type` is spelled `DType`
(`DeliveryDateType` constants: "SDD" scheduled, "RDD" rescheduled,
"DEL" actual). -/
structure UPSDeliveryDate where
  DType : String
  Date : String
  deriving DecidableEq, Repr

/-- The `for _, dd := range p.DeliveryDate` loop of `UPSService.Track`
(pkg/ups/ups.go lines 128–140), with accumulator `proj` for
`parcel.Data.DeliveryProjection`.  Non-SDD/RDD entries are skipped; a
date that fails to parse hits `log.Fatalf`, which terminates the process
(modelled as `none`); otherwise the projection is replaced only when it
is already non-nil and the new date is after it. -/
def upsProjectionLoop : List UPSDeliveryDate → Option Int → Option (Option Int)
  | [], proj => some proj
  | dd :: rest, proj =>
    if dd.DType ≠ "SDD" ∧ dd.DType ≠ "RDD" then upsProjectionLoop rest proj
    else
      match parseYYYYMMDD dd.Date with
      | none => none
      | some d =>
        upsProjectionLoop rest
          (match proj with
           | some p => if d > p then some d else some p
           | none => none)

/-- `ups.Package`: the fields `UPSService.Track` reads. -/
structure UPSPackage where
  TrackingNumber : String
  Activity : List UPSActivity
  DeliveryDate : List UPSDeliveryDate
  deriving DecidableEq, Repr

/-- The per-package normalization of `UPSService.Track` (lines 116–159):
the parcel with data derived from the delivery dates and activities.
`none` models the `log.Fatalf` exit on an unparsable SDD/RDD date. -/
def upsPackageParcel (p : UPSPackage) : Option Parcel :=
  match upsProjectionLoop p.DeliveryDate none with
  | none => none
  | some proj =>
    let st := upsActivityFold p.Activity
    some { Name := p.TrackingNumber, Carrier := Carrier.UPS,
           TrackingNumber := p.TrackingNumber,
           TrackingURL := "https://www.ups.com/track?tracknum=" ++ p.TrackingNumber,
           Data := some { Events := st.2, Delivered := st.1,
                          DeliveryProjection := proj },
           Error := none }

/-! ## FedEx normalization (pkg/fedex/fedex.go) -/

/-- `fedex.Address`: the fields `(*Address).String` reads. -/
structure FedexAddress where
  City : String
  StateOrProvinceCode : String
  PostalCode : String
  CountryCode : String
  deriving DecidableEq, Repr

/-- `(*fedex.Address).String`: identical builder logic to the UPS one. -/
def fedexAddressString (a : FedexAddress) : String :=
  let sb := buildCityStateZip a.City a.StateOrProvinceCode a.PostalCode
  let sb := if a.CountryCode ≠ "US" then (if sb ≠ "" then sb ++ ", " else sb) ++ a.CountryCode else sb
  if sb = "" then upsEmptyPlaceholder else toUpperStr sb

/-- `(*fedex.EventType).ParcelEventType`: switch over the scan event
type codes. -/
def fedexEventTypeParcelEventType (d : String) : ParcelEventType :=
  if d == "OC" then ParcelEventTypeOrderConfirmed
  else if d == "PU" then ParcelEventTypePickedUp
  else if d == "AO" then ParcelEventTypeAssertOnTime
  else if d == "DP" then ParcelEventTypeDeparted
  else if d == "AR" then ParcelEventTypeArrived
  else if d == "OD" then ParcelEventTypeOutForDelivery
  else if d == "DL" then ParcelEventTypeDelivered
  else ParcelEventTypeUnknown

/-- `fedex.ScanEvent`: the fields `FedexService.Track` reads.  `Date` is
the already-unmarshalled `LocalDateTime`, modelled as an instant. -/
structure FedexScanEvent where
  Date : Int
  EventType : String
  EventDescription : String
  ScanLocation : FedexAddress
  deriving DecidableEq, Repr

/-- The `ParcelEvent` built from one scan event in `FedexService.Track`. -/
def fedexScanEventToEvent (e : FedexScanEvent) : ParcelEvent :=
  { Timestamp := e.Date,
    Description := e.EventDescription,
    Location := fedexAddressString e.ScanLocation,
    EType := fedexEventTypeParcelEventType e.EventType }

/-- `fedex.TrackResults`: only the scan events are read by the
normalization loop.  A nil slice and an empty slice are both skipped by
`if r.ScanEvents == nil || len(r.ScanEvents) == 0`, so a single list
models both. -/
structure FedexTrackResult where
  ScanEvents : List FedexScanEvent
  deriving DecidableEq, Repr

/-- The `for _, r := range r.TrackResults` loop of `FedexService.Track`
(pkg/fedex/fedex.go lines 145–164): skip results without scan events,
set `Delivered` on event type "DL", append normalized events.  (Its
`lastEvent` variable is dead code and omitted.)  Returns
(delivered flag, events). -/
def fedexResultFold (results : List FedexTrackResult) : Bool × List ParcelEvent :=
  results.foldl
    (fun st r =>
      if r.ScanEvents = [] then st
      else
        r.ScanEvents.foldl
          (fun st2 e =>
            (st2.1 || (e.EventType == "DL"), st2.2 ++ [fedexScanEventToEvent e]))
          st)
    (false, [])

/-! ## USPS event location (pkg/ups/client.go, package usps) -/

/-- `usps.TrackingEvent`: the location fields read by
`(*TrackingEvent).LocationString`. -/
structure USPSTrackingEvent where
  EventCountry : String
  EventCity : String
  EventState : String
  EventZIP : String
  deriving DecidableEq, Repr

/-- `(*usps.TrackingEvent).LocationString`: same builder as the UPS
address, except the country segment is guarded by `EventCountry != ""`
as well. -/
def uspsLocationString (e : USPSTrackingEvent) : String :=
  let sb := buildCityStateZip e.EventCity e.EventState e.EventZIP
  let sb :=
    if e.EventCountry ≠ "" ∧ e.EventCountry ≠ "US" then
      (if sb ≠ "" then sb ++ ", " else sb) ++ e.EventCountry
    else sb
  if sb = "" then upsEmptyPlaceholder else toUpperStr sb

/-- Modelled from the spec (§4.3, for the C7 comparison): a location
string "CITY, STATE ZIP, COUNTRY" with each segment included only if the
source field is non-empty and the country omitted when it equals the
domestic default "US", upper-cased. -/
def specLocationString (city state zip country : String) : String :=
  let cs := if city ≠ "" ∧ state ≠ "" then city ++ ", " ++ state else city ++ state
  let csz := if zip ≠ "" ∧ cs ≠ "" then cs ++ " " ++ zip else cs ++ zip
  let full :=
    if country ≠ "" ∧ country ≠ "US" then
      (if csz ≠ "" then csz ++ ", " ++ country else country)
    else csz
  toUpperStr full

/-! String-builder helper lemmas. -/

theorem string_append_data (s t : String) :
    (s ++ t).data = s.data ++ t.data := by
  rcases s with ⟨a⟩
  rcases t with ⟨b⟩
  rfl

theorem string_append_eq_empty_iff (s t : String) :
    s ++ t = "" ↔ s = "" ∧ t = "" := by
  constructor
  · intro h
    have hd := congrArg String.data h
    rw [string_append_data] at hd
    rcases List.append_eq_nil.mp hd with ⟨hs, ht⟩
    exact ⟨String.ext hs, String.ext ht⟩
  · rintro ⟨rfl, rfl⟩
    rfl

theorem string_append_empty (s : String) : s ++ "" = s := by
  apply String.ext
  rw [string_append_data]
  exact List.append_nil _

theorem string_empty_append (s : String) : "" ++ s = s := by
  apply String.ext
  rw [string_append_data]
  exact List.nil_append _

theorem string_append_assoc (s t u : String) :
    s ++ t ++ u = s ++ (t ++ u) := by
  apply String.ext
  rw [string_append_data, string_append_data, string_append_data,
    string_append_data, List.append_assoc]

/-! Delivered-flag helper lemmas. -/

theorem foldl_or_fst {α : Type} (sig : α → Bool) (ev : α → ParcelEvent)
    (l : List α) (st : Bool × List ParcelEvent) :
    (l.foldl (fun st a => (st.1 || sig a, st.2 ++ [ev a])) st).1 =
      (st.1 || l.any sig) := by
  induction l generalizing st with
  | nil => simp
  | cons a as ih => simp [ih, Bool.or_assoc]

theorem upsActivityFold_fst (acts : List UPSActivity) :
    (upsActivityFold acts).1 = acts.any upsDeliveredSignal := by
  simpa using foldl_or_fst upsDeliveredSignal upsActivityToEvent acts (false, [])

theorem fedexResultFold_fst (results : List FedexTrackResult) :
    (fedexResultFold results).1 =
      results.any (fun r => r.ScanEvents.any (fun e => e.EventType == "DL")) := by
  suffices h : ∀ (rs : List FedexTrackResult) (st : Bool × List ParcelEvent),
      (rs.foldl
        (fun st r =>
          if r.ScanEvents = [] then st
          else
            r.ScanEvents.foldl
              (fun st2 e =>
                (st2.1 || (e.EventType == "DL"), st2.2 ++ [fedexScanEventToEvent e]))
              st)
        st).1 =
      (st.1 || rs.any (fun r => r.ScanEvents.any (fun e => e.EventType == "DL"))) by
    simpa [fedexResultFold] using h results (false, [])
  intro rs
  induction rs with
  | nil => intro st; simp
  | cons r rest ih =>
    intro st
    by_cases h : r.ScanEvents = []
    · simp [h, ih]
    · rw [List.foldl_cons, if_neg h, ih,
        foldl_or_fst (fun e => e.EventType == "DL") fedexScanEventToEvent]
      simp [Bool.or_assoc]

/-- C5: the normalized delivered flag is true iff some raw event carries
the carrier's documented delivered signal (UPS: status type "D" or code
"FS"; FedEx: event type "DL"); appending non-delivered events preserves
the flag; and removing the unique delivering event clears it. -/
theorem delivered_flag_characterization :
    (∀ acts : List UPSActivity,
      ((upsActivityFold acts).1 = true ↔
        ∃ a ∈ acts, upsDeliveredSignal a = true)) ∧
    (∀ acts extra : List UPSActivity,
      (∀ a ∈ extra, upsDeliveredSignal a = false) →
      (upsActivityFold (acts ++ extra)).1 = (upsActivityFold acts).1) ∧
    (∀ (acts : List UPSActivity) (a : UPSActivity),
      acts.count a = 1 →
      (∀ b ∈ acts, upsDeliveredSignal b = true → b = a) →
      (upsActivityFold (acts.erase a)).1 = false) ∧
    (∀ results : List FedexTrackResult,
      ((fedexResultFold results).1 = true ↔
        ∃ r ∈ results, ∃ e ∈ r.ScanEvents, e.EventType = "DL")) ∧
    (∀ results extra : List FedexTrackResult,
      (∀ r ∈ extra, ∀ e ∈ r.ScanEvents, e.EventType ≠ "DL") →
      (fedexResultFold (results ++ extra)).1 = (fedexResultFold results).1) := by
  refine ⟨?_, ?_, ?_, ?_, ?_⟩
  · intro acts
    rw [upsActivityFold_fst]
    simp [List.any_eq_true]
  · intro acts extra hextra
    rw [upsActivityFold_fst, upsActivityFold_fst, List.any_append]
    have : extra.any upsDeliveredSignal = false := by
      simp only [List.any_eq_false]
      intro a ha
      simp [hextra a ha]
    rw [this, Bool.or_false]
  · intro acts a hcount huniq
    rw [upsActivityFold_fst]
    simp only [List.any_eq_false]
    intro b hb hs
    have hba := huniq b (List.mem_of_mem_erase hb) hs
    subst hba
    have hnotmem : b ∉ acts.erase b := by
      have h0 : (acts.erase b).count b = 0 := by
        rw [List.count_erase_self, hcount]
      exact List.count_eq_zero.mp h0
    exact hnotmem hb
  · intro results
    rw [fedexResultFold_fst]
    simp [List.any_eq_true]
  · intro results extra hextra
    rw [fedexResultFold_fst, fedexResultFold_fst, List.any_append]
    have : extra.any (fun r => r.ScanEvents.any (fun e => e.EventType == "DL")) =
        false := by
      simp only [List.any_eq_false]
      intro r hr hany
      rcases List.any_eq_true.mp hany with ⟨e, he, hdl⟩
      exact absurd (by simpa using hdl) (hextra r hr e he)
    rw [this, Bool.or_false]

def wPlainStatus : UPSStatus :=
  { SType := "I", Description := "Departed from facility", Code := "DP",
    StatusCode := "" }

def wDeliveredStatus : UPSStatus :=
  { SType := "D", Description := "Delivered", Code := "FS", StatusCode := "" }

def wAddress : UPSAddress :=
  { City := "Los Angeles", StateProvince := "CA", Country := "US",
    CountryCode := "US", PostalCode := "90001" }

def wPlainActivity : UPSActivity :=
  { Location := { Address := wAddress }, Status := wPlainStatus,
    Date := "20250224", Time := "080000" }

def wDeliveredActivity : UPSActivity :=
  { Location := { Address := wAddress }, Status := wDeliveredStatus,
    Date := "20250226", Time := "142400" }

def wDLScanEvent : FedexScanEvent :=
  { Date := 20250226110000, EventType := "DL", EventDescription := "Delivered",
    ScanLocation := { City := "Los Angeles", StateOrProvinceCode := "CA",
                      PostalCode := "90001", CountryCode := "US" } }

/-- Witness for `delivered_flag_characterization` on concrete UPS
activities and FedEx results. -/
theorem delivered_flag_characterization_witness :
    (upsActivityFold [wPlainActivity, wDeliveredActivity]).1 = true ∧
    (upsActivityFold ([wDeliveredActivity] ++ [wPlainActivity])).1 =
      (upsActivityFold [wDeliveredActivity]).1 ∧
    (upsActivityFold ([wPlainActivity, wDeliveredActivity].erase
      wDeliveredActivity)).1 = false ∧
    (fedexResultFold [{ ScanEvents := [wDLScanEvent] }]).1 = true ∧
    (fedexResultFold ([{ ScanEvents := [wDLScanEvent] }] ++
      [{ ScanEvents := [] }])).1 =
      (fedexResultFold [{ ScanEvents := [wDLScanEvent] }]).1 := by
  obtain ⟨h1, h2, h3, h4, h5⟩ := delivered_flag_characterization
  refine ⟨?_, ?_, ?_, ?_, ?_⟩
  · exact (h1 _).mpr ⟨wDeliveredActivity, by decide, by decide⟩
  · exact h2 [wDeliveredActivity] [wPlainActivity] (by decide)
  · exact h3 [wPlainActivity, wDeliveredActivity] wDeliveredActivity
      (by decide) (by decide)
  · exact (h4 _).mpr ⟨{ ScanEvents := [wDLScanEvent] }, by decide,
      wDLScanEvent, by decide, by decide⟩
  · exact h5 [{ ScanEvents := [wDLScanEvent] }] [{ ScanEvents := [] }]
      (by decide)

/-! ## The C6 delivery-date projection. -/

theorem upsProjectionLoop_none (dds : List UPSDeliveryDate) :
    ∀ r, upsProjectionLoop dds none = some r → r = none := by
  induction dds with
  | nil =>
    intro r h
    cases h
    rfl
  | cons dd rest ih =>
    intro r h
    simp only [upsProjectionLoop] at h
    by_cases hty : dd.DType ≠ "SDD" ∧ dd.DType ≠ "RDD"
    · rw [if_pos hty] at h
      exact ih r h
    · rw [if_neg hty] at h
      cases hp : parseYYYYMMDD dd.Date
      · rw [hp] at h
        cases h
      · rw [hp] at h
        exact ih r h

/-- C6 (code bug): `UPSService.Track` can never set `DeliveryProjection`:
the update is guarded by `parcel.Data.DeliveryProjection != nil`, which
is false on the freshly created `&envoy.ParcelData{}`, so every
normalized UPS parcel has an absent projection — even when the package
carries scheduled ("SDD") or rescheduled ("RDD") delivery dates. -/
theorem upsDeliveryProjection_always_none (p : UPSPackage) (parcel : Parcel)
    (h : upsPackageParcel p = some parcel) :
    ∃ d, parcel.Data = some d ∧ d.DeliveryProjection = none := by
  unfold upsPackageParcel at h
  cases hl : upsProjectionLoop p.DeliveryDate none with
  | none =>
    rw [hl] at h
    cases h
  | some proj =>
    rw [hl] at h
    cases h
    exact ⟨_, rfl, upsProjectionLoop_none p.DeliveryDate proj hl⟩

def wUPSPackage : UPSPackage :=
  { TrackingNumber := "1Z1234567890123456",
    Activity := [wPlainActivity],
    DeliveryDate := [{ DType := "SDD", Date := "20250301" }] }

/-- Witness for `upsDeliveryProjection_always_none`: a package with a
scheduled delivery date of 2025-03-01 still normalizes to a parcel with
no projection. -/
theorem upsDeliveryProjection_always_none_witness :
    ∃ parcel, upsPackageParcel wUPSPackage = some parcel ∧
      ∃ d, parcel.Data = some d ∧ d.DeliveryProjection = none := by
  rcases hp : upsPackageParcel wUPSPackage with _ | parcel
  · exact absurd hp (by decide)
  · exact ⟨parcel, rfl,
      upsDeliveryProjection_always_none wUPSPackage parcel hp⟩

theorem buildCityStateZip_spec (city state zip : String) :
    buildCityStateZip city state zip =
      (if zip ≠ "" ∧ (if city ≠ "" ∧ state ≠ "" then city ++ ", " ++ state
                      else city ++ state) ≠ "" then
        (if city ≠ "" ∧ state ≠ "" then city ++ ", " ++ state
         else city ++ state) ++ " " ++ zip
       else (if city ≠ "" ∧ state ≠ "" then city ++ ", " ++ state
             else city ++ state) ++ zip) := by
  by_cases hc : city = "" <;> by_cases hs : state = "" <;> by_cases hz : zip = "" <;>
    simp [buildCityStateZip, hc, hs, hz, string_empty_append, string_append_empty,
      string_append_eq_empty_iff, string_append_assoc]

theorem buildCityStateZip_eq_empty (city state zip : String) :
    buildCityStateZip city state zip = "" ↔
      city = "" ∧ state = "" ∧ zip = "" := by
  by_cases hc : city = "" <;> by_cases hs : state = "" <;> by_cases hz : zip = "" <;>
    simp [buildCityStateZip, hc, hs, hz, string_empty_append, string_append_empty,
      string_append_eq_empty_iff]

/-- C7 (amended): the synthesized location string matches the spec's
"CITY, STATE ZIP, COUNTRY" rule — for the UPS address builder whenever
the source country code is non-empty (and some segment renders), and for
the USPS event builder whenever some segment renders.  (With every
segment absent the builders return a placeholder dash, and the UPS
builder appends a dangling ", " when the country code is empty — see the
counterexample.) -/
theorem locationString_matches_spec :
    (∀ a : UPSAddress, a.CountryCode ≠ "" →
      (a.City ≠ "" ∨ a.StateProvince ≠ "" ∨ a.PostalCode ≠ "" ∨
        a.CountryCode ≠ "US") →
      upsAddressString a =
        specLocationString a.City a.StateProvince a.PostalCode a.CountryCode) ∧
    (∀ e : USPSTrackingEvent,
      (e.EventCity ≠ "" ∨ e.EventState ≠ "" ∨ e.EventZIP ≠ "" ∨
        (e.EventCountry ≠ "" ∧ e.EventCountry ≠ "US")) →
      uspsLocationString e =
        specLocationString e.EventCity e.EventState e.EventZIP e.EventCountry) := by
  constructor
  · rintro ⟨city, state, country, co, zip⟩ hco hone
    dsimp only at hco hone ⊢
    by_cases hc : city = "" <;> by_cases hs : state = "" <;>
      by_cases hz : zip = "" <;> by_cases hUS : co = "US" <;>
      simp_all [upsAddressString, specLocationString, buildCityStateZip,
        string_empty_append, string_append_empty, string_append_eq_empty_iff,
        string_append_assoc]
  · rintro ⟨co, city, state, zip⟩ hone
    dsimp only at hone ⊢
    by_cases hc : city = "" <;> by_cases hs : state = "" <;>
      by_cases hz : zip = "" <;> by_cases hco : co = "" <;>
      by_cases hUS : co = "US" <;>
      simp_all [uspsLocationString, specLocationString, buildCityStateZip,
        string_empty_append, string_append_empty, string_append_eq_empty_iff,
        string_append_assoc]

def cexUPSAddressNoCountry : UPSAddress :=
  { City := "Los Angeles", StateProvince := "CA", Country := "",
    CountryCode := "", PostalCode := "90001" }

/-- Counterexample to C7 as stated: with an empty source CountryCode the
UPS builder still appends the country separator (", " followed by the
empty code), so the country segment is not "included only when the
corresponding source field is non-empty". -/
theorem upsAddressString_empty_country :
    upsAddressString cexUPSAddressNoCountry = "LOS ANGELES, CA 90001, " ∧
    specLocationString "Los Angeles" "CA" "90001" "" = "LOS ANGELES, CA 90001" ∧
    upsAddressString cexUPSAddressNoCountry ≠
      specLocationString "Los Angeles" "CA" "90001" "" := by
  refine ⟨by decide, by decide, by decide⟩

def wUPSAddressUS : UPSAddress :=
  { City := "Los Angeles", StateProvince := "CA", Country := "US",
    CountryCode := "US", PostalCode := "90001" }

def wUPSAddressMX : UPSAddress :=
  { City := "Los Angeles", StateProvince := "CA", Country := "MX",
    CountryCode := "MX", PostalCode := "90001" }

def wUSPSEventUS : USPSTrackingEvent :=
  { EventCountry := "US", EventCity := "Los Angeles", EventState := "CA",
    EventZIP := "90001" }

def wUSPSEventMX : USPSTrackingEvent :=
  { EventCountry := "MX", EventCity := "Los Angeles", EventState := "CA",
    EventZIP := "90001" }

/-- Witness for `locationString_matches_spec` at the spec's concrete
examples: domestic ("US") drops the country segment, "MX" appends it. -/
theorem locationString_matches_spec_witness :
    upsAddressString wUPSAddressUS =
      specLocationString "Los Angeles" "CA" "90001" "US" ∧
    upsAddressString wUPSAddressUS = "LOS ANGELES, CA 90001" ∧
    upsAddressString wUPSAddressMX =
      specLocationString "Los Angeles" "CA" "90001" "MX" ∧
    upsAddressString wUPSAddressMX = "LOS ANGELES, CA 90001, MX" ∧
    uspsLocationString wUSPSEventUS = "LOS ANGELES, CA 90001" ∧
    uspsLocationString wUSPSEventMX = "LOS ANGELES, CA 90001, MX" := by
  obtain ⟨hu, hus⟩ := locationString_matches_spec
  refine ⟨hu wUPSAddressUS (by decide) (by decide), by decide,
    hu wUPSAddressMX (by decide) (by decide), by decide, ?_, ?_⟩
  · rw [hus wUSPSEventUS (by decide)]
    decide
  · rw [hus wUSPSEventMX (by decide)]
    decide

/-! ## The UPS per-tracking-number fetch loop (pkg/ups/ups.go 57–163) -/

/-- `ups.Shipment`. -/
structure UPSShipment where
  InquiryNumber : String
  Package : List UPSPackage
  deriving DecidableEq, Repr

/-- The decoded `trackResponse` body for one tracking number
(`response.TrackResponse.Shipment`). -/
structure UPSResponse where
  Shipment : List UPSShipment
  deriving DecidableEq, Repr

/-- The `for _, p := range shipment.Package` loop body applied to a
package list; `none` propagates the `log.Fatalf` process exit. -/
def upsPackagesParcels : List UPSPackage → Option (List Parcel)
  | [] => some []
  | pkg :: rest =>
    match upsPackageParcel pkg with
    | none => none
    | some parcel =>
      match upsPackagesParcels rest with
      | none => none
      | some ps => some (parcel :: ps)

/-- The `for _, shipment := range trackingRes.TrackResponse.Shipment`
loop: parcels of all packages of all shipments, in order. -/
def upsShipmentsParcels : List UPSShipment → Option (List Parcel)
  | [] => some []
  | s :: rest =>
    match upsPackagesParcels s.Package with
    | none => none
    | some ps =>
      match upsShipmentsParcels rest with
      | none => none
      | some qs => some (ps ++ qs)

def upsResponseParcels (res : UPSResponse) : Option (List Parcel) :=
  upsShipmentsParcels res.Shipment

/-- The `for _, trackingNumber := range trackingNumbers` loop of
`UPSService.Track`: `fetch` abstracts building the request, performing
it, reading the body, the 200-status check and the JSON unmarshal — each
failure is an early `return nil, err`, so the whole batch aborts with
that error.  The outer `Option` is `none` when normalization hits
`log.Fatalf`. -/
def upsTrackLoop (fetch : String → Except GoError UPSResponse) :
    List String → Option (Except GoError (List Parcel))
  | [] => some (Except.ok [])
  | tn :: rest =>
    match fetch tn with
    | Except.error e => some (Except.error e)
    | Except.ok res =>
      match upsResponseParcels res with
      | none => none
      | some ps =>
        match upsTrackLoop fetch rest with
        | none => none
        | some (Except.error e) => some (Except.error e)
        | some (Except.ok qs) => some (Except.ok (ps ++ qs))

/-- `UPSService.Track`: a missing/expired token triggers
`Reauthenticate`; its failure returns the error for the whole batch
before any fetch.  `auth` abstracts that step. -/
def upsTrack (auth : Except GoError Unit)
    (fetch : String → Except GoError UPSResponse) (tns : List String) :
    Option (Except GoError (List Parcel)) :=
  match auth with
  | Except.error e => some (Except.error e)
  | Except.ok _ => upsTrackLoop fetch tns

theorem upsPackageParcel_error_none (pkg : UPSPackage) (parcel : Parcel)
    (h : upsPackageParcel pkg = some parcel) : parcel.Error = none := by
  unfold upsPackageParcel at h
  cases hl : upsProjectionLoop pkg.DeliveryDate none with
  | none => rw [hl] at h; cases h
  | some proj => rw [hl] at h; cases h; rfl

theorem upsPackagesParcels_error_none (pkgs : List UPSPackage)
    (ps : List Parcel) (h : upsPackagesParcels pkgs = some ps) :
    ∀ p ∈ ps, p.Error = none := by
  induction pkgs generalizing ps with
  | nil =>
    cases h
    intro p hp
    cases hp
  | cons pkg rest ih =>
    simp only [upsPackagesParcels] at h
    cases hp : upsPackageParcel pkg with
    | none => rw [hp] at h; cases h
    | some parcel =>
      rw [hp] at h
      cases hr : upsPackagesParcels rest with
      | none => rw [hr] at h; cases h
      | some qs =>
        rw [hr] at h
        cases h
        intro p hmem
        rcases List.mem_cons.mp hmem with rfl | hmem
        · exact upsPackageParcel_error_none pkg p hp
        · exact ih qs hr p hmem

theorem upsShipmentsParcels_error_none (ss : List UPSShipment)
    (ps : List Parcel) (h : upsShipmentsParcels ss = some ps) :
    ∀ p ∈ ps, p.Error = none := by
  induction ss generalizing ps with
  | nil =>
    cases h
    intro p hp
    cases hp
  | cons s rest ih =>
    simp only [upsShipmentsParcels] at h
    cases hp : upsPackagesParcels s.Package with
    | none => rw [hp] at h; cases h
    | some qs =>
      rw [hp] at h
      cases hr : upsShipmentsParcels rest with
      | none => rw [hr] at h; cases h
      | some rs =>
        rw [hr] at h
        cases h
        intro p hmem
        rcases List.mem_append.mp hmem with hm | hm
        · exact upsPackagesParcels_error_none s.Package qs hp p hm
        · exact ih rs hr p hm

/-- C8 (amended): `UPSService.Track` aborts the whole batch on failure —
an authentication failure returns that error before any fetch, and any
per-tracking-number transport/HTTP/parse failure makes the batch return
an error rather than a parcel list; no returned parcel ever carries a
per-parcel error (the `Error` field is never populated by the client). -/
theorem upsTrack_batch_abort :
    (∀ (fetch : String → Except GoError UPSResponse) (tns : List String)
        (e : GoError),
      upsTrack (Except.error e) fetch tns = some (Except.error e)) ∧
    (∀ (fetch : String → Except GoError UPSResponse) (tns : List String)
        (tn : String) (e : GoError), tn ∈ tns → fetch tn = Except.error e →
      ∀ ps : List Parcel,
        upsTrack (Except.ok ()) fetch tns ≠ some (Except.ok ps)) ∧
    (∀ (fetch : String → Except GoError UPSResponse) (tns : List String)
        (ps : List Parcel),
      upsTrack (Except.ok ()) fetch tns = some (Except.ok ps) →
      ∀ p ∈ ps, p.Error = none) := by
  refine ⟨fun _ _ _ => rfl, ?_, ?_⟩
  · intro fetch tns tn e hmem hfail
    induction tns with
    | nil => cases hmem
    | cons t rest ih =>
      intro ps h
      cases hf : fetch t with
      | error e2 =>
        simp only [upsTrack, upsTrackLoop, hf] at h
        cases h
      | ok res =>
        rcases List.mem_cons.mp hmem with rfl | hmem2
        · rw [hfail] at hf
          cases hf
        · simp only [upsTrack, upsTrackLoop, hf] at h
          cases hr : upsResponseParcels res with
          | none => rw [hr] at h; cases h
          | some qs =>
            rw [hr] at h
            cases hrec : upsTrackLoop fetch rest with
            | none => rw [hrec] at h; cases h
            | some exc =>
              cases exc with
              | error e3 => rw [hrec] at h; cases h
              | ok rs =>
                exact ih hmem2 rs (by simpa [upsTrack] using hrec)
  · intro fetch tns ps h
    induction tns generalizing ps with
    | nil =>
      simp only [upsTrack, upsTrackLoop] at h
      cases h
      intro p hp
      cases hp
    | cons t rest ih =>
      cases hf : fetch t with
      | error e =>
        simp only [upsTrack, upsTrackLoop, hf] at h
        cases h
      | ok res =>
        simp only [upsTrack, upsTrackLoop, hf] at h
        cases hr : upsResponseParcels res with
        | none => rw [hr] at h; cases h
        | some qs =>
          rw [hr] at h
          cases hrec : upsTrackLoop fetch rest with
          | none => rw [hrec] at h; cases h
          | some exc =>
            cases exc with
            | error e3 => rw [hrec] at h; cases h
            | ok rs =>
              rw [hrec] at h
              cases h
              intro p hp
              rcases List.mem_append.mp hp with hm | hm
              · exact upsShipmentsParcels_error_none res.Shipment qs hr p hm
              · exact ih rs (by simpa [upsTrack] using hrec) p hm

def cexPackageA : UPSPackage :=
  { TrackingNumber := "A", Activity := [wPlainActivity], DeliveryDate := [] }

def cexShipmentA : UPSShipment :=
  { InquiryNumber := "A", Package := [cexPackageA] }

def cexOKResponse : UPSResponse := { Shipment := [cexShipmentA] }

def cexFetch : String → Except GoError UPSResponse := fun tn =>
  if tn = "B" then Except.error GoError.timeout else Except.ok cexOKResponse

/-- Counterexample to C8 as stated: in a batch of two numbers where only
"B" fails with a transport error and "A" succeeds, `UPSService.Track`
returns the error for the whole batch — it does not return two parcels
with the error attached to B's parcel. -/
theorem upsTrack_not_partial_failure_isolated :
    cexFetch "A" = Except.ok cexOKResponse ∧
    cexFetch "B" = Except.error GoError.timeout ∧
    upsTrack (Except.ok ()) cexFetch ["A", "B"] =
      some (Except.error GoError.timeout) := by
  exact ⟨rfl, rfl, by decide⟩

def cexParcelA : Parcel :=
  { Name := "A", Carrier := Carrier.UPS, TrackingNumber := "A",
    TrackingURL := "https://www.ups.com/track?tracknum=A",
    Data := some { Events := [upsActivityToEvent wPlainActivity],
                   Delivered := false, DeliveryProjection := none },
    Error := none }

/-- Witness for `upsTrack_batch_abort`: an authentication failure is
returned for the whole batch, a transport failure on "B" prevents any
parcel list, and a successful singleton batch yields a parcel without a
per-parcel error. -/
theorem upsTrack_batch_abort_witness :
    upsTrack (Except.error GoError.authFailed) cexFetch ["A", "B"] =
      some (Except.error GoError.authFailed) ∧
    upsTrack (Except.ok ()) cexFetch ["A", "B"] ≠
      some (Except.ok []) ∧
    upsTrack (Except.ok ()) cexFetch ["A"] = some (Except.ok [cexParcelA]) ∧
    cexParcelA.Error = none := by
  obtain ⟨h1, h2, h3⟩ := upsTrack_batch_abort
  have hok : upsTrack (Except.ok ()) cexFetch ["A"] =
      some (Except.ok [cexParcelA]) := by decide
  refine ⟨h1 cexFetch ["A", "B"] GoError.authFailed,
    h2 cexFetch ["A", "B"] "B" GoError.timeout (by decide) rfl [], hok,
    h3 cexFetch ["A"] [cexParcelA] hok cexParcelA (by decide)⟩

/-! ## The orchestrator (cmd/envoy/main.go) -/

/-- `groupByCarrier` (cmd/envoy/main.go): append `tn` to the group of
its detected carrier.  The Go `map[envoy.Carrier][]string` is modelled
as an association list in first-appearance order; the results below
depend only on membership, not on group order. -/
def addToGroup : List (Carrier × List String) → Carrier → String →
    List (Carrier × List String)
  | [], c, tn => [(c, [tn])]
  | (c2, tns) :: rest, c, tn =>
    if c2 = c then (c2, tns ++ [tn]) :: rest
    else (c2, tns) :: addToGroup rest c tn

def groupByCarrier (args : List String) : List (Carrier × List String) :=
  args.foldl (fun acc tn => addToGroup acc (DetectCarrier tn) tn) []

/-- The carriers with a service in `syncParcels`'s switch; every other
carrier hits `os.Exit(1)`. -/
def carrierSupported : Carrier → Bool
  | Carrier.FedEx => true
  | Carrier.UPS => true
  | Carrier.USPS => true
  | _ => false

/-- Go `map[string]*envoy.Parcel` as an association list. -/
def mapUpsert : List (String × Parcel) → String → Parcel →
    List (String × Parcel)
  | [], k, v => [(k, v)]
  | (k2, v2) :: rest, k, v =>
    if k2 = k then (k2, v) :: rest else (k2, v2) :: mapUpsert rest k v

def mapLookup : List (String × Parcel) → String → Option Parcel
  | [], _ => none
  | (k2, v2) :: rest, k => if k2 = k then some v2 else mapLookup rest k

/-- One per-carrier goroutine of `syncParcels` (cmd/envoy/main.go lines
196–257): a failed `svc.Track` prints the error and returns, dropping
the whole group; otherwise parcels with data and a last tracking event
are upserted by tracking number.  (`UpsertParcel` persists to the
external store and is outside this model.) -/
def syncParcelsGroup
    (track : Carrier → List String → Except GoError (List Parcel))
    (acc : List (String × Parcel)) (g : Carrier × List String) :
    List (String × Parcel) :=
  match track g.1 g.2 with
  | Except.error _ => acc
  | Except.ok parcels =>
    parcels.foldl
      (fun acc p =>
        if p.HasData = true then
          if p.LastTrackingEvent ≠ none then mapUpsert acc p.TrackingNumber p
          else acc
        else acc)
      acc

/-- `syncParcels`: group, dispatch one fetch per carrier group (the
mutex-guarded merge is modelled by a fold; the membership theorems do not
depend on completion order), and merge.  Any group with an unsupported
carrier reaches `os.Exit(1)`, modelled as `none`.  `track` abstracts the
constructed carrier service's `Track` method. -/
def syncParcels
    (track : Carrier → List String → Except GoError (List Parcel))
    (args : List String) : Option (List (String × Parcel)) :=
  let groups := groupByCarrier args
  if groups.any (fun g => !carrierSupported g.1) then none
  else some (groups.foldl (syncParcelsGroup track) [])

theorem mapLookup_upsert_ne_none (m : List (String × Parcel))
    (k k2 : String) (v : Parcel) :
    mapLookup (mapUpsert m k v) k2 ≠ none ↔
      k2 = k ∨ mapLookup m k2 ≠ none := by
  induction m with
  | nil =>
    simp only [mapUpsert, mapLookup]
    by_cases h : k = k2 <;> simp [h, eq_comm]
  | cons kv rest ih =>
    obtain ⟨k3, v3⟩ := kv
    simp only [mapUpsert]
    by_cases h3 : k3 = k
    · subst h3
      rw [if_pos rfl]
      simp only [mapLookup]
      by_cases h32 : k3 = k2
      · subst h32
        simp
      · have h23 : ¬(k2 = k3) := fun h => h32 h.symm
        simp [h32, h23]
    · rw [if_neg h3]
      simp only [mapLookup]
      by_cases h32 : k3 = k2
      · subst h32
        simp [h3]
      · simp [h32, ih]

theorem parcelsFold_lookup (parcels : List Parcel)
    (acc : List (String × Parcel)) (tn : String) :
    mapLookup
      (parcels.foldl
        (fun acc p =>
          if p.HasData = true then
            if p.LastTrackingEvent ≠ none then mapUpsert acc p.TrackingNumber p
            else acc
          else acc)
        acc) tn ≠ none ↔
      (∃ p ∈ parcels, p.TrackingNumber = tn ∧ p.HasData = true ∧
        p.LastTrackingEvent ≠ none) ∨ mapLookup acc tn ≠ none := by
  induction parcels generalizing acc with
  | nil => simp
  | cons p rest ih =>
    simp only [List.foldl_cons]
    by_cases hd : p.HasData = true
    · by_cases hl : p.LastTrackingEvent ≠ none
      · rw [if_pos hd, if_pos hl, ih, mapLookup_upsert_ne_none]
        simp only [List.mem_cons]
        constructor
        · rintro (⟨q, hq, hprop⟩ | htn | hacc)
          · exact Or.inl ⟨q, Or.inr hq, hprop⟩
          · exact Or.inl ⟨p, Or.inl rfl, htn.symm, hd, hl⟩
          · exact Or.inr hacc
        · rintro (⟨q, rfl | hq, hprop⟩ | hacc)
          · exact Or.inr (Or.inl hprop.1.symm)
          · exact Or.inl ⟨q, hq, hprop⟩
          · exact Or.inr (Or.inr hacc)
      · rw [if_pos hd, if_neg hl, ih]
        simp only [List.mem_cons]
        constructor
        · rintro (⟨q, hq, hprop⟩ | hacc)
          · exact Or.inl ⟨q, Or.inr hq, hprop⟩
          · exact Or.inr hacc
        · rintro (⟨q, rfl | hq, hprop⟩ | hacc)
          · exact absurd hprop.2.2 hl
          · exact Or.inl ⟨q, hq, hprop⟩
          · exact Or.inr hacc
    · rw [if_neg hd, ih]
      simp only [List.mem_cons]
      constructor
      · rintro (⟨q, hq, hprop⟩ | hacc)
        · exact Or.inl ⟨q, Or.inr hq, hprop⟩
        · exact Or.inr hacc
      · rintro (⟨q, rfl | hq, hprop⟩ | hacc)
        · exact absurd hprop.2.1 hd
        · exact Or.inl ⟨q, hq, hprop⟩
        · exact Or.inr hacc

theorem groupsFold_lookup
    (track : Carrier → List String → Except GoError (List Parcel))
    (groups : List (Carrier × List String)) (acc : List (String × Parcel))
    (tn : String) :
    mapLookup (groups.foldl (syncParcelsGroup track) acc) tn ≠ none ↔
      (∃ g ∈ groups, ∃ ps, track g.1 g.2 = Except.ok ps ∧
        ∃ p ∈ ps, p.TrackingNumber = tn ∧ p.HasData = true ∧
          p.LastTrackingEvent ≠ none) ∨ mapLookup acc tn ≠ none := by
  induction groups generalizing acc with
  | nil => simp
  | cons g rest ih =>
    simp only [List.foldl_cons]
    cases ht : track g.1 g.2 with
    | error e =>
      have hg : syncParcelsGroup track acc g = acc := by
        simp [syncParcelsGroup, ht]
      rw [hg, ih]
      simp only [List.mem_cons]
      constructor
      · rintro (⟨g2, hg2, hprop⟩ | hacc)
        · exact Or.inl ⟨g2, Or.inr hg2, hprop⟩
        · exact Or.inr hacc
      · rintro (⟨g2, rfl | hg2, ps, hps, hprop⟩ | hacc)
        · rw [ht] at hps
          cases hps
        · exact Or.inl ⟨g2, hg2, ps, hps, hprop⟩
        · exact Or.inr hacc
    | ok ps =>
      have hg : syncParcelsGroup track acc g =
          ps.foldl
            (fun acc p =>
              if p.HasData = true then
                if p.LastTrackingEvent ≠ none then
                  mapUpsert acc p.TrackingNumber p
                else acc
              else acc)
            acc := by
        simp [syncParcelsGroup, ht]
      rw [hg, ih, parcelsFold_lookup]
      simp only [List.mem_cons]
      constructor
      · rintro (⟨g2, hg2, hprop⟩ | hp | hacc)
        · exact Or.inl ⟨g2, Or.inr hg2, hprop⟩
        · exact Or.inl ⟨g, Or.inl rfl, ps, ht, hp⟩
        · exact Or.inr hacc
      · rintro (⟨g2, rfl | hg2, ps2, hps2, hprop⟩ | hacc)
        · rw [ht] at hps2
          cases hps2
          exact Or.inr (Or.inl hprop)
        · exact Or.inl ⟨g2, hg2, ps2, hps2, hprop⟩
        · exact Or.inr (Or.inr hacc)

theorem addToGroup_fst (acc : List (Carrier × List String)) (c : Carrier)
    (tn : String) (c2 : Carrier) :
    (∃ g ∈ addToGroup acc c tn, g.1 = c2) ↔ c = c2 ∨ ∃ g ∈ acc, g.1 = c2 := by
  induction acc with
  | nil => simp [addToGroup]
  | cons g0 rest ih =>
    obtain ⟨c0, tns0⟩ := g0
    simp only [addToGroup]
    by_cases h0 : c0 = c
    · subst h0
      rw [if_pos rfl]
      simp only [List.mem_cons]
      constructor
      · rintro ⟨g, rfl | hg, hfst⟩
        · exact Or.inr ⟨(c0, tns0), Or.inl rfl, hfst⟩
        · exact Or.inr ⟨g, Or.inr hg, hfst⟩
      · rintro (rfl | ⟨g, rfl | hg, hfst⟩)
        · exact ⟨(c0, tns0 ++ [tn]), Or.inl rfl, rfl⟩
        · exact ⟨(c0, tns0 ++ [tn]), Or.inl rfl, hfst⟩
        · exact ⟨g, Or.inr hg, hfst⟩
    · rw [if_neg h0]
      simp only [List.mem_cons]
      constructor
      · rintro ⟨g, rfl | hg, hfst⟩
        · exact Or.inr ⟨(c0, tns0), Or.inl rfl, hfst⟩
        · rcases (ih).mp ⟨g, hg, hfst⟩ with hc | ⟨g2, hg2, hfst2⟩
          · exact Or.inl hc
          · exact Or.inr ⟨g2, Or.inr hg2, hfst2⟩
      · rintro (hc | ⟨g, rfl | hg, hfst⟩)
        · rcases (ih).mpr (Or.inl hc) with ⟨g, hg, hfst⟩
          exact ⟨g, Or.inr hg, hfst⟩
        · exact ⟨(c0, tns0), Or.inl rfl, hfst⟩
        · rcases (ih).mpr (Or.inr ⟨g, hg, hfst⟩) with ⟨g2, hg2, hfst2⟩
          exact ⟨g2, Or.inr hg2, hfst2⟩

theorem groupByCarrier_fst (args : List String) (c2 : Carrier) :
    (∃ g ∈ groupByCarrier args, g.1 = c2) ↔
      ∃ tn ∈ args, DetectCarrier tn = c2 := by
  suffices h : ∀ acc : List (Carrier × List String),
      (∃ g ∈ args.foldl (fun acc tn => addToGroup acc (DetectCarrier tn) tn) acc,
        g.1 = c2) ↔
      (∃ tn ∈ args, DetectCarrier tn = c2) ∨ ∃ g ∈ acc, g.1 = c2 by
    simpa [groupByCarrier] using h []
  induction args with
  | nil => intro acc; simp
  | cons tn rest ih =>
    intro acc
    simp only [List.foldl_cons]
    rw [ih (addToGroup acc (DetectCarrier tn) tn), addToGroup_fst]
    simp only [List.mem_cons]
    constructor
    · rintro (hr | hdet | hacc)
      · rcases hr with ⟨t, ht, hd⟩
        exact Or.inl ⟨t, Or.inr ht, hd⟩
      · exact Or.inl ⟨tn, Or.inl rfl, hdet⟩
      · exact Or.inr hacc
    · rintro (⟨t, rfl | ht, hd⟩ | hacc)
      · exact Or.inr (Or.inl hd)
      · exact Or.inl ⟨t, ht, hd⟩
      · exact Or.inr (Or.inr hacc)

/-- C9 (amended): the map returned by `syncParcels` contains an entry
for `tn` exactly when some carrier group's `Track` call succeeded and
returned a parcel with tracking number `tn` carrying data and at least
one event.  Inputs of a failed batch are silently absent (no error
entry), as are parcels without data or events; and an input classifying
to an unsupported/Unknown carrier makes `syncParcels` never return at
all (`os.Exit(1)`), which is exactly when the model yields `none`. -/
theorem syncParcels_characterization :
    (∀ (track : Carrier → List String → Except GoError (List Parcel))
        (args : List String) (m : List (String × Parcel)),
      syncParcels track args = some m →
      ∀ tn, (mapLookup m tn ≠ none ↔
        ∃ g ∈ groupByCarrier args, ∃ ps, track g.1 g.2 = Except.ok ps ∧
          ∃ p ∈ ps, p.TrackingNumber = tn ∧ p.HasData = true ∧
            p.LastTrackingEvent ≠ none)) ∧
    (∀ (track : Carrier → List String → Except GoError (List Parcel))
        (args : List String),
      syncParcels track args = none ↔
        ∃ tn ∈ args, carrierSupported (DetectCarrier tn) = false) := by
  constructor
  · intro track args m h tn
    simp only [syncParcels] at h
    by_cases hx : (groupByCarrier args).any (fun g => !carrierSupported g.1)
    · rw [if_pos hx] at h
      cases h
    · rw [if_neg hx] at h
      cases h
      rw [groupsFold_lookup]
      simp [mapLookup]
  · intro track args
    simp only [syncParcels]
    by_cases hx : (groupByCarrier args).any (fun g => !carrierSupported g.1)
    · rw [if_pos hx]
      rcases List.any_eq_true.mp hx with ⟨g, hg, huns⟩
      rcases (groupByCarrier_fst args g.1).mp ⟨g, hg, rfl⟩ with ⟨tn, htn, hdet⟩
      simp only [true_iff]
      exact ⟨tn, htn, by rw [hdet]; simpa using huns⟩
    · rw [if_neg hx]
      constructor
      · intro h
        cases h
      · rintro ⟨tn, htn, huns⟩
        exfalso
        rcases (groupByCarrier_fst args (DetectCarrier tn)).mpr
          ⟨tn, htn, rfl⟩ with ⟨g, hg, hfst⟩
        exact hx (List.any_eq_true.mpr ⟨g, hg, by rw [hfst, huns]; rfl⟩)

/-- Counterexample to C9 as stated: a failed FedEx batch leaves its
input absent from the result map (no error entry), and an input
classifying as Unknown makes `syncParcels` exit the process instead of
reporting the number. -/
theorem syncParcels_drops_inputs :
    DetectCarrier "123456789012" = Carrier.FedEx ∧
    syncParcels (fun _ _ => Except.error GoError.authFailed)
      ["123456789012"] = some [] ∧
    mapLookup [] "123456789012" = none ∧
    DetectCarrier "not-a-tracking-number" = Carrier.Unknown ∧
    syncParcels (fun _ _ => Except.ok []) ["not-a-tracking-number"] = none := by
  exact ⟨by decide, by decide, rfl, by decide, by decide⟩

def wSyncParcel : Parcel :=
  { Name := "w", Carrier := Carrier.FedEx, TrackingNumber := "123456789012",
    TrackingURL := "", Data := some wData12, Error := none }

def wTrackOracle : Carrier → List String → Except GoError (List Parcel) :=
  fun _ _ => Except.ok [wSyncParcel]

/-- Witness for `syncParcels_characterization`: a successful FedEx batch
produces a map entry for its input, and an Unknown input yields `none`. -/
theorem syncParcels_characterization_witness :
    mapLookup [("123456789012", wSyncParcel)] "123456789012" ≠ none ∧
    syncParcels wTrackOracle ["zzz"] = none := by
  obtain ⟨h1, h2⟩ := syncParcels_characterization
  constructor
  · exact (h1 wTrackOracle ["123456789012"] [("123456789012", wSyncParcel)]
      (by decide) "123456789012").mpr
      ⟨(Carrier.FedEx, ["123456789012"]), by decide, [wSyncParcel], rfl,
        wSyncParcel, by decide, rfl, by decide, by decide⟩
  · exact (h2 wTrackOracle ["zzz"]).mpr ⟨"zzz", by decide, by decide⟩
